import Mathlib

/-!
Verification development for the `ascii-love` terminal renderer
(source files `src/lib.rs` and `src/main.rs`).

Modelling conventions:
* `f64` values are modelled as exact rationals (`ℚ`); the rounding of
  individual float operations is abstracted away, and the trigonometric
  and square-root primitives are passed in as explicit function
  parameters (the source wraps them in local `sin` / `cos` helpers).
* Rust's saturating float-to-integer casts (`as i64`, `as i32`,
  `as usize`) are modelled explicitly, as truncation toward zero with
  saturation at the type bounds (negative floats cast to `usize` give 0).
* Panics (a failed `assert!`, an out-of-bounds index) are modelled with
  `Except Unit`: `.error ()` is a panic.
* The depth buffer holds `WithBot ℚ`, with `⊥` playing the role of
  `-f64::INFINITY`; every finite float is strictly above it, exactly as
  every `ooz` value compares strictly above `-INFINITY`.
* IEEE special values matter only for the zero-length-normal path; that
  path is modelled separately with the `FP` type (`nan` / `inf` / `fin`).
-/

namespace AsciiLove

/-- Decidable equality for `Except`, used to evaluate runs of the
modelled code on concrete inputs. -/
instance {ε α : Type} [DecidableEq ε] [DecidableEq α] : DecidableEq (Except ε α) := fun
  | .error a, .error b =>
    if h : a = b then .isTrue (by rw [h]) else .isFalse (fun hc => h (Except.error.inj hc))
  | .error _, .ok _ => .isFalse (fun hc => Except.noConfusion hc)
  | .ok _, .error _ => .isFalse (fun hc => Except.noConfusion hc)
  | .ok a, .ok b =>
    if h : a = b then .isTrue (by rw [h]) else .isFalse (fun hc => h (Except.ok.inj hc))

/-- Truncation toward zero of a rational, the rounding used by Rust's
float-to-integer `as` casts. -/
def ratTrunc (q : ℚ) : ℤ := if 0 ≤ q then ⌊q⌋ else -⌊-q⌋

/-- Rust `as i64` on a (finite, rational-modelled) f64: truncate toward
zero and saturate at the `i64` bounds. -/
def castI64 (q : ℚ) : ℤ := max (-(2 ^ 63)) (min (2 ^ 63 - 1) (ratTrunc q))

/-- Rust `as i32` on a finite f64: truncate toward zero and saturate. -/
def castI32 (q : ℚ) : ℤ := max (-(2 ^ 31)) (min (2 ^ 31 - 1) (ratTrunc q))

/-- Rust `as usize` on a finite f64: negative values saturate to 0,
values above `usize::MAX` saturate to `usize::MAX`. -/
def castUsize (q : ℚ) : ℕ := if q < 0 then 0 else min (ratTrunc q).toNat (2 ^ 64 - 1)

/-- Rust `Ord::clamp x lo hi` on integers. -/
def clampZ (x lo hi : ℤ) : ℤ := min (max x lo) hi

/-- The state of `FloatRangeIter`, the struct defined identically in
`lib.rs` and `main.rs`: bounds, step, a cursor and a precomputed size. -/
structure FloatRangeIter where
  start : ℚ
  «end» : ℚ
  step : ℚ
  current : ℤ
  size : ℤ

/-- One call of `Iterator::next` as written in `lib.rs`: check
`current < size`, produce `start + step * current`, run the two
`assert!`s (a failed assertion is a panic, modelled by `.error ()`),
then increment `current`. -/
def libNext (it : FloatRangeIter) : Except Unit (Option (ℚ × FloatRangeIter)) :=
  if it.current < it.size then
    let value := it.start + it.step * (it.current : ℚ)
    if it.start ≤ value ∧ value < it.«end» then
      .ok (some (value, { it with current := it.current + 1 }))
    else .error ()
  else .ok none

/-- One call of `Iterator::next` as written in `main.rs`: `current` is
incremented first, then the check and the value computation use the
already-incremented cursor. -/
def mainNext (it : FloatRangeIter) : Except Unit (Option (ℚ × FloatRangeIter)) :=
  let it2 : FloatRangeIter := { it with current := it.current + 1 }
  if it2.current < it2.size then
    let value := it2.start + (it2.current : ℚ) * it2.step
    if it2.start ≤ value ∧ value < it2.«end» then
      .ok (some (value, it2))
    else .error ()
  else .ok none

/-- `(start..end).by(step)`: the constructor shared by both files;
`size` is `(end - start) / step` cast to `i64`. -/
def floatRangeBy (start «end» step : ℚ) : FloatRangeIter :=
  { start := start, «end» := «end», step := step, current := 0,
    size := castI64 ((«end» - start) / step) }

/-- Drive an iterator with explicit fuel, collecting the produced values;
a panic in `next` propagates. -/
def runIter (next : FloatRangeIter → Except Unit (Option (ℚ × FloatRangeIter))) :
    ℕ → FloatRangeIter → Except Unit (List ℚ)
  | 0, _ => .ok []
  | n + 1, it =>
    match next it with
    | .error _ => .error ()
    | .ok none => .ok []
    | .ok (some (v, it2)) => (runIter next n it2).map (fun l => v :: l)

/-- `(start..end).by(step).collect()` using the `lib.rs` iterator. -/
def libCollect (start «end» step : ℚ) : Except Unit (List ℚ) :=
  runIter libNext ((floatRangeBy start «end» step).size.toNat + 1)
    (floatRangeBy start «end» step)

/-- `(start..end).by(step).collect()` using the `main.rs` iterator. -/
def mainCollect (start «end» step : ℚ) : Except Unit (List ℚ) :=
  runIter mainNext ((floatRangeBy start «end» step).size.toNat + 1)
    (floatRangeBy start «end» step)

/-- The `LUMINANCE` ramp constant of `main.rs`. -/
def LUMINANCE : List Char := ['.', ',', '-', '~', ':', ';', '=', '!', '*', '#', '$', '@']

/-- Heart parametric position, `main.rs` lines 66-69: the `x`, `y`, `z`
computed from `(u, v)`; the trig functions are explicit parameters. -/
def surfacePos (sin cos : ℚ → ℚ) (u v : ℚ) : ℚ × ℚ × ℚ :=
  (sin v * (15 * sin u - 4 * sin (3 * u)),
   8 * cos v,
   sin v * (15 * cos u - 5 * cos (2 * u) - 2 * cos (3 * u) - cos (4 * u)))

/-- Unnormalized surface normal, `main.rs` lines 90-93. -/
def surfaceNormal (sin cos : ℚ → ℚ) (u v : ℚ) : ℚ × ℚ × ℚ :=
  (sin v * (15 * cos u - 4 * cos (3 * u)),
   8 * -sin v * sin v,
   cos v * (15 * sin u - 5 * sin (2 * u) - 2 * sin (3 * u) - sin (4 * u)))

/-- Rotation around the Y axis by angle `b`, `main.rs` lines 72-74 and 96-98. -/
def rotateY (sin cos : ℚ → ℚ) (b : ℚ) (p : ℚ × ℚ × ℚ) : ℚ × ℚ × ℚ :=
  (p.1 * cos b + p.2.2 * sin b, p.2.1, -p.1 * sin b + p.2.2 * cos b)

/-- Rotation around the X axis by angle `a`, `main.rs` lines 77-79 and 101-103. -/
def rotateX (sin cos : ℚ → ℚ) (a : ℚ) (p : ℚ × ℚ × ℚ) : ℚ × ℚ × ℚ :=
  (p.1, p.2.1 * cos a - p.2.2 * sin a, p.2.1 * sin a + p.2.2 * cos a)

/-- The fully transformed position: Y-rotation by `b`, then X-rotation by
`a`, applied to the surface position. -/
def transformedPosition (sin cos : ℚ → ℚ) (a b u v : ℚ) : ℚ × ℚ × ℚ :=
  rotateX sin cos a (rotateY sin cos b (surfacePos sin cos u v))

/-- The fully transformed (still unnormalized) normal: Y-rotation by `b`,
then X-rotation by `a`, applied to the surface normal. -/
def transformedNormal (sin cos : ℚ → ℚ) (a b u v : ℚ) : ℚ × ℚ × ℚ :=
  rotateX sin cos a (rotateY sin cos b (surfaceNormal sin cos u v))

/-- Sum of squared components of a 3-vector (`.powi(2)` sums in the source). -/
def sumsq (n : ℚ × ℚ × ℚ) : ℚ := n.1 ^ 2 + n.2.1 ^ 2 + n.2.2 ^ 2

/-- Normal normalization, `main.rs` lines 106-109: divide each component
by `sqrt (nx^2 + ny^2 + nz^2)`; the square root is a parameter. -/
def normalizeNormal (sqrt : ℚ → ℚ) (n : ℚ × ℚ × ℚ) : ℚ × ℚ × ℚ :=
  let length := sqrt (sumsq n)
  (n.1 / length, n.2.1 / length, n.2.2 / length)

/-- Luminance dot product with the light direction `(0, 0, -1)`,
`main.rs` lines 112-117. -/
def lumaOf (n : ℚ × ℚ × ℚ) : ℚ := n.1 * 0 + n.2.1 * 0 + n.2.2 * (-1)

/-- The raw luminance index, `main.rs` line 118: `((luma + 1.0) * 5.5) as i32`. -/
def luminanceIndexRaw (luma : ℚ) : ℤ := castI32 ((luma + 1) * (11 / 2))

/-- The clamped luminance index, `main.rs` line 125:
`luminance_index.clamp(0, n_lumas as i32)` with `n_lumas = LUMINANCE.len() - 1`. -/
def luminanceIndexClamped (luma : ℚ) : ℤ :=
  clampZ (luminanceIndexRaw luma) 0 ((LUMINANCE.length : ℤ) - 1)

/-- The character looked up in the ramp, `main.rs` line 126. -/
def luminanceChar (luma : ℚ) : Char :=
  LUMINANCE.getD (luminanceIndexClamped luma).toNat ' '

/-- The two frame-scoped buffers of `render_frame`: `output` (characters)
and `zbuffer` (`WithBot ℚ` depths, `⊥` standing for `-INFINITY`). -/
structure Buffers where
  output : List (List Char)
  zbuffer : List (List (WithBot ℚ))
deriving DecidableEq

/-- The buffers as allocated at the top of `render_frame`:
`height` rows of `width` blanks, and `height` rows of `width` `-INFINITY`. -/
def initBuffers (w h : ℕ) : Buffers :=
  { output := List.replicate h (List.replicate w ' '),
    zbuffer := List.replicate h (List.replicate w (⊥ : WithBot ℚ)) }

/-- Read `g[y][x]` from a 2D grid; `none` is an index panic. -/
def get2 {α : Type} (g : List (List α)) (y x : ℕ) : Option α :=
  (g.get? y).bind fun row => row.get? x

/-- Write `g[y][x] = v` in a 2D grid (callers establish in-bounds). -/
def set2 {α : Type} (g : List (List α)) (y x : ℕ) (v : α) : List (List α) :=
  g.set y ((g.getD y []).set x v)

/-- The rasterization tail of the per-sample loop body, `main.rs` lines
120-127: `within_screen` is the bounds test, `visible` reads
`zbuffer[yp][xp]` unconditionally (an out-of-bounds read is a panic,
`.error ()`), and the guarded branch updates both buffers. -/
def rasterizeSample (w h : ℕ) (st : Buffers) (xp yp : ℕ) (ooz : ℚ) (ch : Char) :
    Except Unit Buffers :=
  let within_screen := xp < w ∧ yp < h
  match get2 st.zbuffer yp xp with
  | none => .error ()
  | some d =>
    if within_screen ∧ (ooz : WithBot ℚ) > d then
      .ok { output := set2 st.output yp xp ch,
            zbuffer := set2 st.zbuffer yp xp (ooz : WithBot ℚ) }
    else .ok st

/-- The parameters of one frame: the float primitives, the two angles
and the screen dimensions. -/
structure RenderCtx where
  sin : ℚ → ℚ
  cos : ℚ → ℚ
  sqrt : ℚ → ℚ
  a : ℚ
  b : ℚ
  width : ℕ
  height : ℕ

/-- One iteration of the inner loop of `render_frame`, `main.rs`
lines 65-127, for a single `(u, v)` sample. -/
def sampleStep (C : RenderCtx) (st : Buffers) (u v : ℚ) : Except Unit Buffers :=
  let pr := transformedPosition C.sin C.cos C.a C.b u v
  let z_offset : ℚ := 70
  let ooz := 1 / (pr.2.2 + z_offset)
  let xp := castUsize ((C.width : ℚ) / 2 + pr.1 * ooz * (C.width : ℚ))
  let yp := castUsize ((C.height : ℚ) / 2 - pr.2.1 * ooz * (C.height : ℚ))
  let nr := normalizeNormal C.sqrt (transformedNormal C.sin C.cos C.a C.b u v)
  let luma := lumaOf nr
  rasterizeSample C.width C.height st xp yp ooz (luminanceChar luma)

/-- The whole of `render_frame` (`main.rs` lines 57-135) minus terminal
I/O: iterate `u` over `(0.0..2.0 * PI).by(0.02)` and, for each `u`, `v`
over `(0.0..PI).by(0.02)` — both with the `main.rs` iterator — and fold
the per-sample step over freshly initialized buffers.  `pi` is the f64
constant, passed as a parameter like the other float primitives. -/
def renderFrame (sin cos sqrt : ℚ → ℚ) (pi : ℚ) (a b : ℚ) (w h : ℕ) :
    Except Unit (List (List Char)) := do
  let us ← mainCollect 0 (2 * pi) (1 / 50)
  let vs ← mainCollect 0 pi (1 / 50)
  let C : RenderCtx := ⟨sin, cos, sqrt, a, b, w, h⟩
  let final ← us.foldlM
    (fun st u => vs.foldlM (fun st v => sampleStep C st u v) st)
    (initBuffers w h)
  pure final.output

/-- The per-pixel depth-test/update rule extracted from `main.rs` lines
121-126: a state `(depth, char)` is replaced by an incoming sample
`(ooz, char)` exactly when `ooz` is strictly larger than the stored depth. -/
def depthUpdate (st : WithBot ℚ × Char) (s : ℚ × Char) : WithBot ℚ × Char :=
  if (s.1 : WithBot ℚ) > st.1 then ((s.1 : WithBot ℚ), s.2) else st

/-- Folding all samples that hit one fixed pixel, in frame order,
starting from the initial `(-INFINITY, blank)` pixel state. -/
def pixelFold (samples : List (ℚ × Char)) : WithBot ℚ × Char :=
  samples.foldl depthUpdate ((⊥ : WithBot ℚ), ' ')

/-- Reference answer: the sample with maximum `ooz`, earliest occurrence
winning ties (`⊥`/blank when there is no sample). -/
def argmaxFirst : List (ℚ × Char) → WithBot ℚ × Char
  | [] => ((⊥ : WithBot ℚ), ' ')
  | s :: t =>
    let r := argmaxFirst t
    if r.1 ≤ (s.1 : WithBot ℚ) then ((s.1 : WithBot ℚ), s.2) else r

/-- The spec's stated position formula ("Position: `x = sin(v) * (15*sin(u)
- 4*sin(3u))`; `y = 8*cos(v)`; `z = sin(v) * (15*cos(u) - 5*cos(2u) -
2*cos(3u) - cos(4u))`"), written from the spec text for comparison. -/
def specPosition (sin cos : ℚ → ℚ) (u v : ℚ) : ℚ × ℚ × ℚ :=
  (sin v * (15 * sin u - 4 * sin (3 * u)),
   8 * cos v,
   sin v * (15 * cos u - 5 * cos (2 * u) - 2 * cos (3 * u) - cos (4 * u)))

/-- The spec's stated unnormalized normal formula ("`nx = sin(v) *
(15*cos(u) - 4*cos(3u))`; `ny = 8 * -sin(v) * sin(v)`; `nz = cos(v) *
(15*sin(u) - 5*sin(2u) - 2*sin(3u) - sin(4u))`"). -/
def specNormal (sin cos : ℚ → ℚ) (u v : ℚ) : ℚ × ℚ × ℚ :=
  (sin v * (15 * cos u - 4 * cos (3 * u)),
   8 * -sin v * sin v,
   cos v * (15 * sin u - 5 * sin (2 * u) - 2 * sin (3 * u) - sin (4 * u)))

/-- The spec's stated Y-axis rotation: "`x' = x*cos(b) + z*sin(b)`,
`y' = y`, `z' = -x*sin(b) + z*cos(b)`". -/
def specRotY (sin cos : ℚ → ℚ) (b : ℚ) (p : ℚ × ℚ × ℚ) : ℚ × ℚ × ℚ :=
  (p.1 * cos b + p.2.2 * sin b, p.2.1, -p.1 * sin b + p.2.2 * cos b)

/-- The spec's stated X-axis rotation: "`x'' = x'`, `y'' = y'*cos(a) -
z'*sin(a)`, `z'' = y'*sin(a) + z'*cos(a)`". -/
def specRotX (sin cos : ℚ → ℚ) (a : ℚ) (p : ℚ × ℚ × ℚ) : ℚ × ℚ × ℚ :=
  (p.1, p.2.1 * cos a - p.2.2 * sin a, p.2.1 * sin a + p.2.2 * cos a)

/-!
IEEE-special-value model for the zero-length-normal path.  Rounding of
finite arithmetic is still exact, but `nan` and the two infinities are
represented, because `0.0 / 0.0 = NaN` and `NaN as i32 = 0` decide what
the renderer shows for a degenerate normal.  Signed zero is not
represented (a zero divisor is treated as `+0`), which is enough for
every operation this path performs.
-/

/-- A floating-point value: `NaN`, a signed infinity, or a finite value. -/
inductive FP where
  | nan : FP
  | inf : Bool → FP
  | fin : ℚ → FP
deriving DecidableEq

/-- IEEE addition on the model. -/
def fadd : FP → FP → FP
  | .nan, _ => .nan
  | _, .nan => .nan
  | .inf s, .inf t => if s = t then .inf s else .nan
  | .inf s, .fin _ => .inf s
  | .fin _, .inf t => .inf t
  | .fin a, .fin b => .fin (a + b)

/-- IEEE multiplication on the model. -/
def fmul : FP → FP → FP
  | .nan, _ => .nan
  | _, .nan => .nan
  | .inf s, .inf t => .inf (s == t)
  | .inf s, .fin b => if b = 0 then .nan else .inf (s == decide (0 < b))
  | .fin a, .inf t => if a = 0 then .nan else .inf (t == decide (0 < a))
  | .fin a, .fin b => .fin (a * b)

/-- IEEE division on the model: `0/0` is `NaN`, `x/0` for `x ≠ 0` is a
signed infinity. -/
def fdiv : FP → FP → FP
  | .nan, _ => .nan
  | _, .nan => .nan
  | .inf _, .inf _ => .nan
  | .inf s, .fin b => if 0 ≤ b then .inf s else .inf (!s)
  | .fin _, .inf _ => .fin 0
  | .fin a, .fin b =>
    if b = 0 then (if a = 0 then .nan else (if 0 < a then .inf true else .inf false))
    else .fin (a / b)

/-- Rust `as i32` including the special values: `NaN` casts to 0 and the
infinities saturate. -/
def castI32F : FP → ℤ
  | .nan => 0
  | .inf true => 2 ^ 31 - 1
  | .inf false => -(2 ^ 31)
  | .fin q => castI32 q

/-- The normalization of `main.rs` lines 106-109 on the special-value
model: `length` is the square root of the sum of squares, and each
component is divided by it. -/
def normalizeFP (sqrtF : FP → FP) (n : FP × FP × FP) : FP × FP × FP :=
  let length := sqrtF (fadd (fadd (fmul n.1 n.1) (fmul n.2.1 n.2.1)) (fmul n.2.2 n.2.2))
  (fdiv n.1 length, fdiv n.2.1 length, fdiv n.2.2 length)

/-- The luminance dot product of `main.rs` lines 112-117 on the
special-value model: `nx*0 + ny*0 + nz*(-1)`. -/
def lumaFP (n : FP × FP × FP) : FP :=
  fadd (fadd (fmul n.1 (.fin 0)) (fmul n.2.1 (.fin 0))) (fmul n.2.2 (.fin (-1)))

/-- `((luma + 1.0) * 5.5) as i32` on the special-value model. -/
def luminanceIndexFP (luma : FP) : ℤ := castI32F (fmul (fadd luma (.fin 1)) (.fin (11 / 2)))

/-- The clamped ramp lookup of `main.rs` lines 124-126 on the
special-value model. -/
def luminanceCharFP (luma : FP) : Char :=
  LUMINANCE.getD (clampZ (luminanceIndexFP luma) 0 ((LUMINANCE.length : ℤ) - 1)).toNat ' '

/-! ### Theorems -/

theorem runIter_succ (next : FloatRangeIter → Except Unit (Option (ℚ × FloatRangeIter)))
    (n : ℕ) (it : FloatRangeIter) :
    runIter next (n + 1) it =
      match next it with
      | .error _ => .error ()
      | .ok none => .ok []
      | .ok (some (v, it2)) => (runIter next n it2).map (fun l => v :: l) := rfl

theorem libNext_yield (it : FloatRangeIter) (hc : it.current < it.size)
    (h1 : it.start ≤ it.start + it.step * (it.current : ℚ))
    (h2 : it.start + it.step * (it.current : ℚ) < it.«end») :
    libNext it = .ok (some (it.start + it.step * (it.current : ℚ),
      { it with current := it.current + 1 })) := by
  simp only [libNext]
  rw [if_pos hc, if_pos ⟨h1, h2⟩]

theorem mainNext_yield (it : FloatRangeIter) (hc : it.current + 1 < it.size)
    (h1 : it.start ≤ it.start + ((it.current + 1 : ℤ) : ℚ) * it.step)
    (h2 : it.start + ((it.current + 1 : ℤ) : ℚ) * it.step < it.«end») :
    mainNext it = .ok (some (it.start + ((it.current + 1 : ℤ) : ℚ) * it.step,
      { it with current := it.current + 1 })) := by
  simp only [mainNext]
  rw [if_pos hc, if_pos ⟨h1, h2⟩]

/-- Any run of the `lib.rs` iterator from a nonnegative cursor, with a
positive step and a size small enough that `size * step` fits in the
interval, panics on no assertion and stays within `[start, end)`. -/
theorem runIter_libNext_ok (n : ℕ) : ∀ it : FloatRangeIter,
    0 < it.step → 0 ≤ it.current → (it.size : ℚ) * it.step ≤ it.«end» - it.start →
    ∃ l, runIter libNext n it = .ok l ∧ ∀ v ∈ l, it.start ≤ v ∧ v < it.«end» := by
  induction n with
  | zero => exact fun it _ _ _ => ⟨[], rfl, by simp⟩
  | succ n ih =>
    intro it hstep hcur hsize
    by_cases hc : it.current < it.size
    · have hc1 : (it.current : ℚ) < (it.size : ℚ) := by exact_mod_cast hc
      have hc0 : (0 : ℚ) ≤ (it.current : ℚ) := by exact_mod_cast hcur
      have h1 : it.start ≤ it.start + it.step * (it.current : ℚ) := by nlinarith
      have h2 : it.start + it.step * (it.current : ℚ) < it.«end» := by nlinarith
      obtain ⟨l, hl, hmem⟩ := ih { it with current := it.current + 1 } hstep
        (show (0 : ℤ) ≤ it.current + 1 by omega) hsize
      refine ⟨(it.start + it.step * (it.current : ℚ)) :: l, ?_, ?_⟩
      · rw [runIter_succ, libNext_yield it hc h1 h2]
        simp only [hl, Except.map]
      · intro v hv
        rcases List.mem_cons.mp hv with h | h
        · exact h ▸ ⟨h1, h2⟩
        · exact hmem v h
    · refine ⟨[], ?_, by simp⟩
      rw [runIter_succ]
      simp only [libNext, if_neg hc]

/-- Same bound invariant for the `main.rs` copy of the iterator. -/
theorem runIter_mainNext_ok (n : ℕ) : ∀ it : FloatRangeIter,
    0 < it.step → 0 ≤ it.current → (it.size : ℚ) * it.step ≤ it.«end» - it.start →
    ∃ l, runIter mainNext n it = .ok l ∧ ∀ v ∈ l, it.start ≤ v ∧ v < it.«end» := by
  induction n with
  | zero => exact fun it _ _ _ => ⟨[], rfl, by simp⟩
  | succ n ih =>
    intro it hstep hcur hsize
    by_cases hc : it.current + 1 < it.size
    · have hc1 : ((it.current + 1 : ℤ) : ℚ) < (it.size : ℚ) := by exact_mod_cast hc
      have hc0 : (0 : ℚ) ≤ ((it.current + 1 : ℤ) : ℚ) := by
        have : (0 : ℤ) ≤ it.current + 1 := by omega
        exact_mod_cast this
      have h1 : it.start ≤ it.start + ((it.current + 1 : ℤ) : ℚ) * it.step := by nlinarith
      have h2 : it.start + ((it.current + 1 : ℤ) : ℚ) * it.step < it.«end» := by nlinarith
      obtain ⟨l, hl, hmem⟩ := ih { it with current := it.current + 1 } hstep
        (show (0 : ℤ) ≤ it.current + 1 by omega) hsize
      refine ⟨(it.start + ((it.current + 1 : ℤ) : ℚ) * it.step) :: l, ?_, ?_⟩
      · rw [runIter_succ, mainNext_yield it hc h1 h2]
        simp only [hl, Except.map]
      · intro v hv
        rcases List.mem_cons.mp hv with h | h
        · exact h ▸ ⟨h1, h2⟩
        · exact hmem v h
    · refine ⟨[], ?_, by simp⟩
      rw [runIter_succ]
      simp only [mainNext, if_neg hc]

/-- The precomputed `size` of `(start..end).by(step)` satisfies
`size * step ≤ end - start` whenever the parameters are positive. -/
theorem floatRangeBy_size_le (start stop step : ℚ) (hlt : start < stop) (hpos : 0 < step) :
    ((floatRangeBy start stop step).size : ℚ) * step ≤ stop - start := by
  have hq : (0 : ℚ) ≤ (stop - start) / step := div_nonneg (by linarith) hpos.le
  have hfl : (0 : ℤ) ≤ ⌊(stop - start) / step⌋ := Int.floor_nonneg.mpr hq
  have hmin : min ((2 : ℤ) ^ 63 - 1) ⌊(stop - start) / step⌋ ≤ ⌊(stop - start) / step⌋ :=
    min_le_right _ _
  have hmin0 : (0 : ℤ) ≤ min ((2 : ℤ) ^ 63 - 1) ⌊(stop - start) / step⌋ :=
    le_min (by norm_num) hfl
  have hsz : (floatRangeBy start stop step).size =
      min ((2 : ℤ) ^ 63 - 1) ⌊(stop - start) / step⌋ := by
    simp only [floatRangeBy, castI64, ratTrunc, if_pos hq]
    exact max_eq_right (le_trans (by norm_num) hmin0)
  rw [hsz]
  have h1 : ((min ((2 : ℤ) ^ 63 - 1) ⌊(stop - start) / step⌋ : ℤ) : ℚ) ≤
      (stop - start) / step := by
    calc ((min ((2 : ℤ) ^ 63 - 1) ⌊(stop - start) / step⌋ : ℤ) : ℚ)
        ≤ ((⌊(stop - start) / step⌋ : ℤ) : ℚ) := by exact_mod_cast hmin
      _ ≤ (stop - start) / step := Int.floor_le _
  calc ((min ((2 : ℤ) ^ 63 - 1) ⌊(stop - start) / step⌋ : ℤ) : ℚ) * step
      ≤ ((stop - start) / step) * step := by
        exact mul_le_mul_of_nonneg_right h1 hpos.le
    _ = stop - start := div_mul_cancel₀ _ (ne_of_gt hpos)

/-- C1: the spec's range contract fails on the iterator copy inside
`main.rs` (the one the renderer actually runs): on the range
`(0.0, 1.0, 0.25)` it produces `[0.25, 0.5, 0.75]` — three values, the
first not equal to `start` — while the `lib.rs` iterator (whose unit
test the repository ships) produces the claimed `[0.0, 0.25, 0.5, 0.75]`. -/
theorem mainRange_quarter_skips_start :
    mainCollect 0 1 (1/4) = .ok [1/4, 1/2, 3/4]
    ∧ libCollect 0 1 (1/4) = .ok [0, 1/4, 1/2, 3/4]
    ∧ ([(1 : ℚ)/4, 1/2, 3/4] : List ℚ) ≠ [0, 1/4, 1/2, 3/4] := by
  refine ⟨?_, ?_, ?_⟩
  · norm_num [mainCollect, runIter, mainNext, floatRangeBy, castI64, ratTrunc, Except.map]
  · norm_num [libCollect, runIter, libNext, floatRangeBy, castI64, ratTrunc, Except.map]
  · intro h
    have := List.head_eq_of_cons_eq h
    norm_num at this

/-- C6: for every range with `start < end` and `step > 0`, both copies of
the iterator produce only values in `[start, end)`, and the two
`assert!`s inside `next` never fire (the run never panics). -/
theorem range_bound_invariant (start stop step : ℚ) (hlt : start < stop) (hpos : 0 < step) :
    (∃ l, libCollect start stop step = .ok l ∧ ∀ v ∈ l, start ≤ v ∧ v < stop)
    ∧ (∃ l, mainCollect start stop step = .ok l ∧ ∀ v ∈ l, start ≤ v ∧ v < stop) := by
  have hsize := floatRangeBy_size_le start stop step hlt hpos
  constructor
  · exact runIter_libNext_ok _ (floatRangeBy start stop step) hpos le_rfl hsize
  · exact runIter_mainNext_ok _ (floatRangeBy start stop step) hpos le_rfl hsize

/-- Witness for the range bound invariant at `(0.0, 1.0, 0.25)`. -/
theorem range_bound_invariant_witness :
    ((0 : ℚ) < 1 ∧ (0 : ℚ) < 1/4)
    ∧ ((∃ l, libCollect 0 1 (1/4) = .ok l ∧ ∀ v ∈ l, (0 : ℚ) ≤ v ∧ v < 1)
        ∧ (∃ l, mainCollect 0 1 (1/4) = .ok l ∧ ∀ v ∈ l, (0 : ℚ) ≤ v ∧ v < 1)) :=
  ⟨⟨by norm_num, by norm_num⟩, range_bound_invariant 0 1 (1/4) (by norm_num) (by norm_num)⟩

/-- C4: the luminance mapper uses the fixed 12-character ramp, the raw
index is the truncation of `(luma + 1) * 5.5` (already in `[0, 11]` for
`luma ∈ [-1, 1]`, so the clamp is a no-op there), and the endpoints map
to the darkest and brightest characters. -/
theorem luminance_index_bounds (luma : ℚ) :
    LUMINANCE = ['.', ',', '-', '~', ':', ';', '=', '!', '*', '#', '$', '@']
    ∧ (-1 ≤ luma → luma ≤ 1 →
        luminanceIndexRaw luma = ratTrunc ((luma + 1) * (11 / 2))
        ∧ 0 ≤ luminanceIndexRaw luma ∧ luminanceIndexRaw luma ≤ 11
        ∧ luminanceIndexClamped luma = luminanceIndexRaw luma)
    ∧ luminanceIndexClamped (-1) = 0 ∧ luminanceIndexClamped 1 = 11
    ∧ luminanceChar (-1) = '.' ∧ luminanceChar 1 = '@' := by
  refine ⟨rfl, ?_, ?_, ?_, ?_, ?_⟩
  · intro hlo hhi
    have hq0 : (0 : ℚ) ≤ (luma + 1) * (11 / 2) := by nlinarith
    have hq11 : (luma + 1) * (11 / 2) ≤ 11 := by nlinarith
    have htr : ratTrunc ((luma + 1) * (11 / 2)) = ⌊(luma + 1) * (11 / 2)⌋ := if_pos hq0
    have ht0 : (0 : ℤ) ≤ ⌊(luma + 1) * (11 / 2)⌋ := Int.floor_nonneg.mpr hq0
    have ht11 : ⌊(luma + 1) * (11 / 2)⌋ ≤ 11 := by
      have := Int.floor_le_floor hq11
      simpa using this
    have hraw : luminanceIndexRaw luma = ⌊(luma + 1) * (11 / 2)⌋ := by
      unfold luminanceIndexRaw castI32
      rw [htr, min_eq_right (by linarith), max_eq_right (by linarith)]
    refine ⟨by rw [hraw, htr], by rw [hraw]; exact ht0, by rw [hraw]; exact ht11, ?_⟩
    unfold luminanceIndexClamped clampZ
    rw [max_eq_left (by rw [hraw]; exact ht0)]
    exact min_eq_left (by show luminanceIndexRaw luma ≤ (LUMINANCE.length : ℤ) - 1
                          rw [hraw]; norm_num [LUMINANCE]; exact ht11)
  · norm_num [luminanceIndexClamped, luminanceIndexRaw, clampZ, castI32, ratTrunc, LUMINANCE]
  · norm_num [luminanceIndexClamped, luminanceIndexRaw, clampZ, castI32, ratTrunc, LUMINANCE]
  · norm_num [luminanceChar, luminanceIndexClamped, luminanceIndexRaw, clampZ, castI32,
      ratTrunc, LUMINANCE]
  · norm_num [luminanceChar, luminanceIndexClamped, luminanceIndexRaw, clampZ, castI32,
      ratTrunc, LUMINANCE]
    rfl

/-- Witness for the luminance bounds at `luma = 1/2`. -/
theorem luminance_index_bounds_witness :
    (-1 ≤ (1/2 : ℚ)) ∧ ((1/2 : ℚ) ≤ 1)
    ∧ (luminanceIndexRaw (1/2) = ratTrunc (((1/2 : ℚ) + 1) * (11 / 2))
        ∧ 0 ≤ luminanceIndexRaw (1/2) ∧ luminanceIndexRaw (1/2) ≤ 11
        ∧ luminanceIndexClamped (1/2) = luminanceIndexRaw (1/2)) :=
  ⟨by norm_num, by norm_num,
    (luminance_index_bounds (1/2)).2.1 (by norm_num) (by norm_num)⟩

/-- C5: the embedded sampler computes exactly the spec's position and
normal formulas and applies, to both vectors, first the Y-axis rotation
by `b` and then the X-axis rotation by `a`, exactly as the spec states
them (the equalities hold for arbitrary trig primitives). -/
theorem transform_matches_spec (sin cos : ℚ → ℚ) (a b u v : ℚ) :
    surfacePos sin cos u v = specPosition sin cos u v
    ∧ surfaceNormal sin cos u v = specNormal sin cos u v
    ∧ transformedPosition sin cos a b u v
        = specRotX sin cos a (specRotY sin cos b (specPosition sin cos u v))
    ∧ transformedNormal sin cos a b u v
        = specRotX sin cos a (specRotY sin cos b (specNormal sin cos u v)) :=
  ⟨rfl, rfl, rfl, rfl⟩

/-- C8: whenever the square-root primitive returns a nonzero value whose
square is the sum of squares of the rotated normal (what `f64::sqrt`
guarantees up to rounding), the normalized rotated normal has squared
Euclidean length exactly 1. -/
theorem normalized_normal_unit_length (sin cos sqrt : ℚ → ℚ) (a b u v : ℚ)
    (hne : sqrt (sumsq (transformedNormal sin cos a b u v)) ≠ 0)
    (hsq : sqrt (sumsq (transformedNormal sin cos a b u v)) ^ 2
        = sumsq (transformedNormal sin cos a b u v)) :
    sumsq (normalizeNormal sqrt (transformedNormal sin cos a b u v)) = 1 := by
  set n := transformedNormal sin cos a b u v with hn
  have hL2 : sqrt (sumsq n) ^ 2 ≠ 0 := pow_ne_zero _ hne
  calc sumsq (normalizeNormal sqrt n)
      = sumsq n / sqrt (sumsq n) ^ 2 := by
        simp only [normalizeNormal, sumsq, div_pow]
        rw [div_add_div_same, div_add_div_same]
    _ = sqrt (sumsq n) ^ 2 / sqrt (sumsq n) ^ 2 := by rw [hsq]
    _ = 1 := div_self hL2

/-- Witness for the unit-length property with `sin = 1`, `cos = 0`,
`sqrt = 8` (the rotated normal is then `(0, 0, -8)`). -/
theorem normalized_normal_unit_length_witness :
    sumsq (normalizeNormal (fun _ => 8)
      (transformedNormal (fun _ => 1) (fun _ => 0) 0 0 0 0)) = 1 :=
  normalized_normal_unit_length (fun _ => 1) (fun _ => 0) (fun _ => 8) 0 0 0 0
    (by norm_num)
    (by norm_num [transformedNormal, rotateX, rotateY, surfaceNormal, sumsq])

theorem getQ_replicate {α : Type} (a : α) (n i : ℕ) (h : i < n) :
    (List.replicate n a).get? i = some a := by
  induction n generalizing i with
  | zero => omega
  | succ n ih =>
    cases i with
    | zero => rfl
    | succ i => exact ih i (by omega)

theorem getQ_set_self {α : Type} (l : List α) (i : ℕ) (a : α) (h : i < l.length) :
    (l.set i a).get? i = some a := by
  induction l generalizing i with
  | nil => simp at h
  | cons x xs ih =>
    cases i with
    | zero => rfl
    | succ i => exact ih i (by simpa using h)

theorem get2_set2_self {α : Type} (g : List (List α)) (y x : ℕ) (v d : α)
    (h : get2 g y x = some d) : get2 (set2 g y x v) y x = some v := by
  unfold get2 at h
  cases hy : g.get? y with
  | none => rw [hy] at h; simp at h
  | some row =>
    rw [hy] at h
    simp only [Option.some_bind] at h
    have hylen : y < g.length := by
      by_contra hc
      rw [List.get?_eq_none.mpr (by omega)] at hy
      exact Option.noConfusion hy
    have hxlen : x < row.length := by
      by_contra hc
      rw [List.get?_eq_none.mpr (by omega)] at h
      exact Option.noConfusion h
    unfold get2 set2
    have hgd : g.getD y [] = row := by
      unfold List.getD
      rw [hy]
      rfl
    rw [hgd, getQ_set_self g y (row.set x v) hylen]
    simp only [Option.some_bind]
    exact getQ_set_self row x v hxlen

/-- C2 refuted at a concrete input: on a 4-by-4 screen, a sample whose
projected coordinates are `(xp, yp) = (0, 6)` panics — the code evaluates
`zbuffer[yp][xp]` before the `within_screen` test is consulted, so the
out-of-screen sample causes an index-out-of-bounds fault instead of
being silently discarded. -/
theorem rasterize_oob_read_panics :
    rasterizeSample 4 4 (initBuffers 4 4) 0 6 (1/10) '.' = .error () := rfl

/-- C9: a negative projected coordinate saturates to 0 under the
`as usize` cast, so the bounds test passes and a sample landing on a
fresh pixel is drawn at column 0 / row 0 of the buffers rather than
being discarded as off-screen. -/
theorem negative_projection_draws_at_zero (xpf ypf ooz : ℚ) (ch : Char) (w h : ℕ)
    (hx : xpf < 0) (hy : ypf < 0) (hw : 0 < w) (hh : 0 < h) :
    castUsize xpf = 0 ∧ castUsize ypf = 0
    ∧ ∃ st, rasterizeSample w h (initBuffers w h) (castUsize xpf) (castUsize ypf) ooz ch
          = .ok st
        ∧ get2 st.output 0 0 = some ch := by
  have hc0 : castUsize xpf = 0 := if_pos hx
  have hc0v : castUsize ypf = 0 := if_pos hy
  have hzb : get2 (initBuffers w h).zbuffer 0 0 = some (⊥ : WithBot ℚ) := by
    unfold initBuffers get2
    rw [getQ_replicate _ h 0 hh]
    simp only [Option.some_bind]
    exact getQ_replicate _ w 0 hw
  have hout : get2 (initBuffers w h).output 0 0 = some ' ' := by
    unfold initBuffers get2
    rw [getQ_replicate _ h 0 hh]
    simp only [Option.some_bind]
    exact getQ_replicate _ w 0 hw
  refine ⟨hc0, hc0v,
    ⟨{ output := set2 (initBuffers w h).output 0 0 ch,
       zbuffer := set2 (initBuffers w h).zbuffer 0 0 (ooz : WithBot ℚ) }, ?_, ?_⟩⟩
  · rw [hc0, hc0v]
    unfold rasterizeSample
    simp only [hzb]
    rw [if_pos ⟨⟨hw, hh⟩, WithBot.bot_lt_coe ooz⟩]
  · exact get2_set2_self _ 0 0 ch ' ' hout

/-- Witness for the saturating draw at the concrete projections `-1`. -/
theorem negative_projection_draws_at_zero_witness :
    castUsize (-1) = 0 ∧ castUsize (-1) = 0
    ∧ ∃ st, rasterizeSample 1 1 (initBuffers 1 1) (castUsize (-1)) (castUsize (-1)) 0 '@'
          = .ok st
        ∧ get2 st.output 0 0 = some '@' :=
  negative_projection_draws_at_zero (-1) (-1) 0 '@' 1 1 (by norm_num) (by norm_num)
    (by norm_num) (by norm_num)

/-- C7: `render_frame` is deterministic — two invocations with equal
angles and screen dimensions (and the same float primitives) produce
equal character grids. -/
theorem renderFrame_deterministic (sin cos sqrt : ℚ → ℚ) (pi : ℚ) (a b a2 b2 : ℚ)
    (w h w2 h2 : ℕ) (ha : a = a2) (hb : b = b2) (hw : w = w2) (hh : h = h2) :
    renderFrame sin cos sqrt pi a b w h = renderFrame sin cos sqrt pi a2 b2 w2 h2 := by
  subst ha
  subst hb
  subst hw
  subst hh
  rfl

/-- Witness for frame determinism at concrete parameters. -/
theorem renderFrame_deterministic_witness :
    renderFrame (fun _ => 0) (fun _ => 1) (fun _ => 0) 3 0 0 2 2
      = renderFrame (fun _ => 0) (fun _ => 1) (fun _ => 0) 3 0 0 2 2 :=
  renderFrame_deterministic (fun _ => 0) (fun _ => 1) (fun _ => 0) 3 0 0 0 0 2 2 2 2
    rfl rfl rfl rfl

theorem argmaxFirst_fst (l : List (ℚ × Char)) :
    (argmaxFirst l).1 = (l.map Prod.fst).maximum := by
  induction l with
  | nil => simp [argmaxFirst]
  | cons s t ih =>
    simp only [argmaxFirst, List.map_cons, List.maximum_cons]
    by_cases hc : (argmaxFirst t).1 ≤ (s.1 : WithBot ℚ)
    · rw [if_pos hc, ← ih]
      exact (max_eq_left hc).symm
    · rw [if_neg hc, ← ih]
      exact (max_eq_right (not_le.mp hc).le).symm

theorem argmaxFirst_spec (l : List (ℚ × Char)) (hne : l ≠ []) :
    ∃ k t, l.get? k = some t ∧ argmaxFirst l = ((t.1 : WithBot ℚ), t.2)
      ∧ (∀ s ∈ l, s.1 ≤ t.1)
      ∧ ∀ j s2, l.get? j = some s2 → s2.1 = t.1 → k ≤ j := by
  induction l with
  | nil => exact absurd rfl hne
  | cons s t ih =>
    by_cases hc : (argmaxFirst t).1 ≤ (s.1 : WithBot ℚ)
    · refine ⟨0, s, rfl, ?_, ?_, fun j _ _ _ => Nat.zero_le j⟩
      · simp only [argmaxFirst]
        rw [if_pos hc]
      · intro r hr
        rcases List.mem_cons.mp hr with h | h
        · exact h ▸ le_refl _
        · have h1 : (↑r.1 : WithBot ℚ) ≤ (t.map Prod.fst).maximum :=
            List.le_maximum_of_mem' (List.mem_map_of_mem Prod.fst h)
          rw [← argmaxFirst_fst] at h1
          exact_mod_cast le_trans h1 hc
    · have hne2 : t ≠ [] := by
        intro h0
        rw [h0] at hc
        exact hc bot_le
      obtain ⟨k, t0, hget, heq, hbound, hearliest⟩ := ih hne2
      have hlt : (s.1 : WithBot ℚ) < (t0.1 : WithBot ℚ) := by
        have := not_le.mp hc
        rwa [heq] at this
      refine ⟨k + 1, t0, hget, ?_, ?_, ?_⟩
      · simp only [argmaxFirst]
        rw [if_neg hc]
        exact heq
      · intro r hr
        rcases List.mem_cons.mp hr with h | h
        · exact h ▸ (WithBot.coe_lt_coe.mp hlt).le
        · exact hbound r h
      · intro j s2 hj hs2
        cases j with
        | zero =>
          exfalso
          have hs : s2 = s := by simpa using hj.symm
          rw [hs] at hs2
          exact absurd hs2 (ne_of_lt (WithBot.coe_lt_coe.mp hlt))
        | succ j => exact Nat.succ_le_succ (hearliest j s2 hj hs2)

theorem foldl_depthUpdate_eq (l : List (ℚ × Char)) :
    ∀ init : WithBot ℚ × Char,
      l.foldl depthUpdate init =
        if (argmaxFirst l).1 ≤ init.1 then init else argmaxFirst l := by
  induction l with
  | nil =>
    intro init
    simp only [List.foldl_nil, argmaxFirst]
    rw [if_pos bot_le]
  | cons s t ih =>
    intro init
    rw [List.foldl_cons, ih (depthUpdate init s)]
    by_cases h1 : init.1 < (s.1 : WithBot ℚ)
    · have hdu : depthUpdate init s = ((s.1 : WithBot ℚ), s.2) := if_pos h1
      rw [hdu]
      by_cases h2 : (argmaxFirst t).1 ≤ (s.1 : WithBot ℚ)
      · have hamf : argmaxFirst (s :: t) = ((s.1 : WithBot ℚ), s.2) := by
          simp only [argmaxFirst]
          rw [if_pos h2]
        rw [hamf, if_pos h2, if_neg (not_le.mpr h1)]
      · have hamf : argmaxFirst (s :: t) = argmaxFirst t := by
          simp only [argmaxFirst]
          rw [if_neg h2]
        rw [hamf, if_neg h2,
          if_neg (not_le.mpr (lt_trans h1 (not_le.mp h2)))]
    · have hdu : depthUpdate init s = init := if_neg h1
      rw [hdu]
      have hsi : (s.1 : WithBot ℚ) ≤ init.1 := not_lt.mp h1
      by_cases h2 : (argmaxFirst t).1 ≤ (s.1 : WithBot ℚ)
      · have hamf : argmaxFirst (s :: t) = ((s.1 : WithBot ℚ), s.2) := by
          simp only [argmaxFirst]
          rw [if_pos h2]
        rw [hamf, if_pos (le_trans h2 hsi), if_pos hsi]
      · have hamf : argmaxFirst (s :: t) = argmaxFirst t := by
          simp only [argmaxFirst]
          rw [if_neg h2]
        rw [hamf]

theorem pixelFold_eq_argmaxFirst (l : List (ℚ × Char)) : pixelFold l = argmaxFirst l := by
  unfold pixelFold
  rw [foldl_depthUpdate_eq l ((⊥ : WithBot ℚ), ' ')]
  cases l with
  | nil => simp [argmaxFirst]
  | cons s t =>
    rw [if_neg ?_]
    obtain ⟨k, t0, _, heq, _, _⟩ := argmaxFirst_spec (s :: t) (by simp)
    rw [heq]
    simp

/-- C3: within one frame, each pixel's stored depth starts at `-INFINITY`
(`⊥`), a stored pixel is only ever replaced by a strictly larger `ooz`
(ties keep the earlier writer), the guarded buffer update of the
rasterizer is exactly this per-pixel rule, and folding all samples of a
pixel leaves the character of the earliest maximum-`ooz` sample. -/
theorem depth_test_monotone_max :
    (∀ (st : WithBot ℚ × Char) (s : ℚ × Char),
        depthUpdate st s = st
        ∨ (st.1 < (s.1 : WithBot ℚ) ∧ depthUpdate st s = ((s.1 : WithBot ℚ), s.2)))
    ∧ (∀ w h y x : ℕ, y < h → x < w → get2 (initBuffers w h).zbuffer y x = some ⊥)
    ∧ (∀ l : List (ℚ × Char),
        pixelFold l = argmaxFirst l ∧ (pixelFold l).1 = (l.map Prod.fst).maximum)
    ∧ (∀ l : List (ℚ × Char), l ≠ [] →
        ∃ k t, l.get? k = some t ∧ pixelFold l = ((t.1 : WithBot ℚ), t.2)
          ∧ (∀ s ∈ l, s.1 ≤ t.1)
          ∧ ∀ j s2, l.get? j = some s2 → s2.1 = t.1 → k ≤ j)
    ∧ (∀ (w h : ℕ) (st : Buffers) (xp yp : ℕ) (ooz : ℚ) (ch : Char)
          (d : WithBot ℚ) (c0 : Char),
        xp < w → yp < h →
        get2 st.zbuffer yp xp = some d → get2 st.output yp xp = some c0 →
        ∃ st2, rasterizeSample w h st xp yp ooz ch = .ok st2
          ∧ get2 st2.zbuffer yp xp = some (depthUpdate (d, c0) (ooz, ch)).1
          ∧ get2 st2.output yp xp = some (depthUpdate (d, c0) (ooz, ch)).2) := by
  refine ⟨?_, ?_, ?_, ?_, ?_⟩
  · intro st s
    by_cases h : st.1 < (s.1 : WithBot ℚ)
    · exact Or.inr ⟨h, if_pos h⟩
    · exact Or.inl (if_neg h)
  · intro w h y x hy hx
    unfold initBuffers get2
    rw [getQ_replicate _ h y hy]
    simp only [Option.some_bind]
    exact getQ_replicate _ w x hx
  · intro l
    exact ⟨pixelFold_eq_argmaxFirst l, by rw [pixelFold_eq_argmaxFirst]; exact argmaxFirst_fst l⟩
  · intro l hne
    obtain ⟨k, t0, hget, heq, hbound, hearliest⟩ := argmaxFirst_spec l hne
    exact ⟨k, t0, hget, by rw [pixelFold_eq_argmaxFirst]; exact heq, hbound, hearliest⟩
  · intro w h st xp yp ooz ch d c0 hx hy hzb hout
    unfold rasterizeSample
    simp only [hzb]
    by_cases hgt : (d : WithBot ℚ) < (ooz : WithBot ℚ)
    · have hdu : depthUpdate (d, c0) (ooz, ch) = ((ooz : WithBot ℚ), ch) := if_pos hgt
      rw [if_pos ⟨⟨hx, hy⟩, hgt⟩, hdu]
      exact ⟨_, rfl, get2_set2_self _ yp xp _ d hzb, get2_set2_self _ yp xp _ c0 hout⟩
    · have hdu : depthUpdate (d, c0) (ooz, ch) = (d, c0) := if_neg hgt
      rw [if_neg (fun hcond => hgt hcond.2), hdu]
      exact ⟨st, rfl, hzb, hout⟩

/-- Witness for the depth-test characterization on the sample list
`[(1, 'x'), (3, 'y'), (3, 'z'), (2, 'w')]`. -/
theorem depth_test_monotone_max_witness :
    ∃ k t, ([((1 : ℚ), 'x'), (3, 'y'), (3, 'z'), (2, 'w')].get? k = some t)
      ∧ pixelFold [((1 : ℚ), 'x'), (3, 'y'), (3, 'z'), (2, 'w')] = ((t.1 : WithBot ℚ), t.2)
      ∧ (∀ s ∈ [((1 : ℚ), 'x'), (3, 'y'), (3, 'z'), (2, 'w')], s.1 ≤ t.1)
      ∧ ∀ j s2, [((1 : ℚ), 'x'), (3, 'y'), (3, 'z'), (2, 'w')].get? j = some s2 →
          s2.1 = t.1 → k ≤ j :=
  depth_test_monotone_max.2.2.2.1 [((1 : ℚ), 'x'), (3, 'y'), (3, 'z'), (2, 'w')] (by simp)

/-- C10: when the rotated normal is exactly `(0, 0, 0)` the length is
`sqrt 0 = 0`, each component division is `0/0 = NaN`, the luminance dot
product is `NaN`, the `as i32` cast of `(NaN + 1) * 5.5` is 0, and after
clamping the renderer draws the darkest ramp character — no crash: the
rasterization step completes and writes that character. -/
theorem zero_normal_yields_darkest (sqrtF : FP → FP) (hsqrt : sqrtF (.fin 0) = .fin 0) :
    normalizeFP sqrtF (.fin 0, .fin 0, .fin 0) = (.nan, .nan, .nan)
    ∧ lumaFP (.nan, .nan, .nan) = .nan
    ∧ luminanceIndexFP .nan = 0
    ∧ luminanceCharFP .nan = '.'
    ∧ rasterizeSample 1 1 (initBuffers 1 1) 0 0 0 (luminanceCharFP .nan)
        = .ok { output := [['.']], zbuffer := [[((0 : ℚ) : WithBot ℚ)]] } := by
  have h1 : fmul (FP.fin 0) (FP.fin 0) = FP.fin 0 := by simp [fmul]
  have h2 : fadd (FP.fin 0) (FP.fin 0) = FP.fin 0 := by simp [fadd]
  have h3 : fdiv (FP.fin 0) (FP.fin 0) = FP.nan := by simp [fdiv]
  refine ⟨?_, rfl, rfl, rfl, ?_⟩
  · simp only [normalizeFP, h1, h2, hsqrt, h3]
  · unfold rasterizeSample
    simp only [show get2 (initBuffers 1 1).zbuffer 0 0 = some (⊥ : WithBot ℚ) from rfl]
    rw [if_pos ⟨⟨Nat.zero_lt_one, Nat.zero_lt_one⟩, WithBot.bot_lt_coe 0⟩]
    rfl

/-- Witness for the degenerate-normal behavior with `sqrt` instantiated
as the identity (so `sqrt 0 = 0` holds definitionally). -/
theorem zero_normal_yields_darkest_witness :
    normalizeFP id (.fin 0, .fin 0, .fin 0) = (.nan, .nan, .nan)
    ∧ luminanceCharFP .nan = '.' :=
  ⟨(zero_normal_yields_darkest id rfl).1, (zero_normal_yields_darkest id rfl).2.2.2.1⟩

end AsciiLove
